import Mathlib

/-!
Verification development for `facebook/build_archive.py` (Deemable): a script
that converts a Facebook data export (posts, albums, media) into a static HTML
site.  Python strings are modelled as lists of Unicode code points
(`List Nat`), since Python `str` values may hold arbitrary code points
(including lone surrogates coming from JSON escapes).  JSON values produced by
`json.load` are modelled by the inductive type `JSON` below.  Each definition
is a direct translation of the function of the same name in
`build_archive.py`; deviations forced by the embedding (places where the
Python code would raise on data shapes the script never sees) are noted in
the doc comments.
-/

/-- Code points of a Lean string literal: the model of a Python `str` value. -/
def pyStr (s : String) : List Nat := s.toList.map Char.toNat

/-- Model of `text.encode('latin-1')`: each code point ≤ 255 becomes one byte;
any larger code point raises `UnicodeEncodeError` (modelled as `none`). -/
def latin1Encode : List Nat → Option (List Nat)
  | [] => some []
  | c :: cs => if c ≤ 255 then (latin1Encode cs).map (c :: ·) else none

/-- Model of `bytes.decode('utf-8')` in strict mode: standard RFC 3629 UTF-8 decoding,
rejecting overlong forms, surrogate code points (U+D800–U+DFFF), code points
above U+10FFFF, stray continuation bytes and truncated sequences (all of which
raise `UnicodeDecodeError` in Python, modelled as `none`). -/
def utf8Decode : List Nat → Option (List Nat)
  | [] => some []
  | b :: bs =>
    if b ≤ 0x7F then
      (utf8Decode bs).map (b :: ·)
    else if 0xC2 ≤ b ∧ b ≤ 0xDF then
      match bs with
      | b1 :: bs1 =>
        if 0x80 ≤ b1 ∧ b1 ≤ 0xBF then
          (utf8Decode bs1).map (((b - 0xC0) * 0x40 + (b1 - 0x80)) :: ·)
        else none
      | [] => none
    else if 0xE0 ≤ b ∧ b ≤ 0xEF then
      match bs with
      | b1 :: b2 :: bs2 =>
        let lo1 := if b = 0xE0 then 0xA0 else 0x80
        let hi1 := if b = 0xED then 0x9F else 0xBF
        if lo1 ≤ b1 ∧ b1 ≤ hi1 ∧ 0x80 ≤ b2 ∧ b2 ≤ 0xBF then
          (utf8Decode bs2).map
            (((b - 0xE0) * 0x1000 + (b1 - 0x80) * 0x40 + (b2 - 0x80)) :: ·)
        else none
      | _ => none
    else if 0xF0 ≤ b ∧ b ≤ 0xF4 then
      match bs with
      | b1 :: b2 :: b3 :: bs3 =>
        let lo1 := if b = 0xF0 then 0x90 else 0x80
        let hi1 := if b = 0xF4 then 0x8F else 0xBF
        if lo1 ≤ b1 ∧ b1 ≤ hi1 ∧ 0x80 ≤ b2 ∧ b2 ≤ 0xBF ∧ 0x80 ≤ b3 ∧ b3 ≤ 0xBF then
          (utf8Decode bs3).map
            (((b - 0xF0) * 0x40000 + (b1 - 0x80) * 0x1000 + (b2 - 0x80) * 0x40
              + (b3 - 0x80)) :: ·)
        else none
      | _ => none
    else none

/-- Model of `decode_facebook_text(text)`:
```
if text is None: return ""
try: return text.encode('latin-1').decode('utf-8')
except (UnicodeDecodeError, UnicodeEncodeError): return text
```
`none` models `text is None`.  (For `str` inputs these two exception classes
are the only failures either operation can raise, so the `try` block exactly
corresponds to the two `Option` failure cases.) -/
def decode_facebook_text : Option (List Nat) → List Nat
  | none => []
  | some text =>
    match latin1Encode text with
    | none => text
    | some bytes =>
      match utf8Decode bytes with
      | none => text
      | some decoded => decoded

/-- The five characters replaced by Python's `html.escape` (quote=True,
the default used throughout `build_archive.py`): `&` `<` `>` `"` `'`. -/
def escapable (c : Nat) : Bool :=
  c = 38 || c = 60 || c = 62 || c = 34 || c = 39

/-- Replacement text of one character under `html.escape`. -/
def escChar (c : Nat) : List Nat :=
  if c = 38 then pyStr "&amp;"
  else if c = 60 then pyStr "&lt;"
  else if c = 62 then pyStr "&gt;"
  else if c = 34 then pyStr "&quot;"
  else if c = 39 then pyStr "&#x27;"
  else [c]

/-- Model of `html.escape(s)` with `quote=True` (the default): the sequential
`str.replace` passes of CPython's implementation (`&` first, then `<`, `>`,
`"`, `'`) are equivalent to this single character-wise substitution, because
no replacement text contains a character that a later pass rewrites. -/
def html_escape (s : List Nat) : List Nat := s.flatMap escChar

/-- Values produced by Python's `json.load`: `null`, booleans, numbers
(the export's numbers are integers, so `num` carries an `Int`), strings,
arrays and objects (`dict`s, kept as association lists in source order). -/
inductive JSON where
  | null
  | bool (b : Bool)
  | num (n : Int)
  | str (s : List Nat)
  | arr (xs : List JSON)
  | obj (fields : List (List Nat × JSON))

/-- Dictionary lookup.  `json.load` builds a `dict`, where a duplicated key
keeps the value of its last occurrence, hence the lookup prefers later
entries. -/
def lookupLast (fields : List (List Nat × JSON)) (k : List Nat) : Option JSON :=
  match fields with
  | [] => none
  | (k', v) :: rest =>
    match lookupLast rest k with
    | some r => some r
    | none => if k' = k then some v else none

/-- Lookup `d.get(k)` / `d[k]` on a JSON object (`none` when the key is absent).
Non-object values are mapped to `none`; in Python `d.get` on a non-`dict`
raises `AttributeError`, a shape the script's callers never produce. -/
def jGet : JSON → List Nat → Option JSON
  | .obj fields, k => lookupLast fields k
  | _, _ => none

/-- Lookup with default, `d.get(k, default)`. -/
def jGetD (j : JSON) (k : List Nat) (d : JSON) : JSON := (jGet j k).getD d

/-- Test `k in d`: Python key membership on a `dict`. -/
def hasKey (j : JSON) (k : List Nat) : Bool := (jGet j k).isSome

/-- Python truthiness of a `json.load` value (`if not data: ...`):
`None`, `False`, `0`, `""`, `[]` and `{}` are falsy. -/
def truthy : JSON → Bool
  | .null => false
  | .bool b => b
  | .num n => n ≠ 0
  | .str s => !s.isEmpty
  | .arr xs => !xs.isEmpty
  | .obj fields => !fields.isEmpty

/-- Extract the elements of a JSON array (`for x in v` where `v` came from a
`.get(k, [])`).  Non-array truthy values would make Python iterate something
else (or raise); the export's fields are arrays, and the model returns `[]`
for them. -/
def asArr : JSON → List JSON
  | .arr xs => xs
  | _ => []

/-- Read a string field: `j.get(k)` when the value is a string, else `none`
(an absent key gives `None` in Python; the export's `uri`/`url` fields are
strings whenever present). -/
def jGetStr (j : JSON) (k : List Nat) : Option (List Nat) :=
  match jGet j k with
  | some (.str s) => some s
  | _ => none

/-- Read an integer field with a default: `j.get(k, d)` for timestamp fields. -/
def jGetInt (j : JSON) (k : List Nat) (d : Int) : Int :=
  match jGet j k with
  | some (.num n) => n
  | _ => d

/-- Helper applying `decode_facebook_text` to a JSON field value: the script passes
either `None` (absent key without default) or the field's string.  A non-`str`
non-`None` argument would raise `AttributeError` in Python; the export's text
fields are strings, and the model returns `[]` there. -/
def decodeJSONText : JSON → List Nat
  | .null => []
  | .str s => decode_facebook_text (some s)
  | _ => []

/-- One entry of a post's `media` list: `{'uri': media.get('uri'),
'description': decode_facebook_text(media.get('description', ''))}`. -/
structure Media where
  uri : Option (List Nat)
  description : List Nat
deriving DecidableEq

/-- One normalized post, as built inside `load_posts`. -/
structure Post where
  timestamp : Int
  title : List Nat
  text : List Nat
  media : List Media
  external_url : Option (List Nat)
deriving DecidableEq

/-- One photo entry of an album. -/
structure Photo where
  uri : Option (List Nat)
  description : List Nat
  timestamp : Int
deriving DecidableEq

/-- One normalized album, as built inside `load_albums`. -/
structure Album where
  name : List Nat
  description : List Nat
  photos : List Photo
  cover : Option (List Nat)
deriving DecidableEq

/-- The nested attachment entries scanned by `load_posts`:
`for attachment in item.get('attachments', []): for d in attachment.get('data', [])`. -/
def attachmentEntries (item : JSON) : List JSON :=
  (asArr (jGetD item (pyStr "attachments") (.arr []))).flatMap
    (fun att => asArr (jGetD att (pyStr "data") (.arr [])))

/-- The media record built from one attachment-data entry `d` holding a
`'media'` key. -/
def mkMedia (d : JSON) : Media :=
  let m := jGetD d (pyStr "media") .null
  { uri := jGetStr m (pyStr "uri")
    description := decodeJSONText (jGetD m (pyStr "description") (.str [])) }

/-- The external-link URL taken from one attachment-data entry `d`:
`d['external_context'].get('url')`. -/
def urlOfEntry (d : JSON) : Option (List Nat) :=
  jGetStr (jGetD d (pyStr "external_context") .null) (pyStr "url")

/-- One iteration of the attachment scan loop of `load_posts`: append a media
record when the entry has a `'media'` key, and overwrite
`post['external_url']` when it has an `'external_context'` key. -/
def scanStep (acc : List Media × Option (List Nat)) (d : JSON) :
    List Media × Option (List Nat) :=
  let acc1 :=
    if hasKey d (pyStr "media") then (acc.1 ++ [mkMedia d], acc.2) else acc
  if hasKey d (pyStr "external_context") then (acc1.1, urlOfEntry d) else acc1

/-- The attachment scan loop of `load_posts`: one left-to-right pass over all
nested attachment-data entries, starting from no media and no external URL. -/
def scanAttachments (entries : List JSON) : List Media × Option (List Nat) :=
  entries.foldl scanStep ([], none)

/-- The post-text scan of `load_posts`: the first entry of `item['data']`
holding a `'post'` key, decoded. -/
def postText (item : JSON) : List Nat :=
  match (asArr (jGetD item (pyStr "data") (.arr []))).find?
      (fun d => hasKey d (pyStr "post")) with
  | some d => decodeJSONText (jGetD d (pyStr "post") .null)
  | none => []

/-- The post record built from one raw item of the posts array. -/
def parsePost (item : JSON) : Post :=
  let scan := scanAttachments (attachmentEntries item)
  { timestamp := jGetInt item (pyStr "timestamp") 0
    title := decodeJSONText (jGetD item (pyStr "title") (.str []))
    text := postText item
    media := scan.1
    external_url := scan.2 }

/-- Model of `posts.sort(key=lambda x: x['timestamp'], reverse=True)`: Python's sort is
stable, and a stable descending sort is `insertionSort` with the relation
"later timestamp first" (two total preorders' stable sorts agree on every
list). -/
def sortPosts (posts : List Post) : List Post :=
  List.insertionSort (fun a b => b.timestamp ≤ a.timestamp) posts

/-- Model of `load_posts()`, parametrised by the parsed content of
`profile_posts_1.json` (`none` models `load_json` failure).  `if not data:
return []` makes every falsy value (including the empty array) yield `[]`;
a truthy non-array would raise inside Python's `for item in data` loop and is
outside the model, which only receives arrays or failures. -/
def load_posts (data : Option JSON) : List Post :=
  match data with
  | some (.arr items) =>
    if items.isEmpty then [] else sortPosts (items.map parsePost)
  | _ => []

/-- One photo record of `load_albums`. -/
def parsePhoto (p : JSON) : Photo :=
  { uri := jGetStr p (pyStr "uri")
    description := decodeJSONText (jGetD p (pyStr "description") (.str []))
    timestamp := jGetInt p (pyStr "creation_timestamp") 0 }

/-- The album record built from one parsed album file (the body of the
`for album_file in ...` loop, before the final non-empty-photos check). -/
def parseAlbum (data : JSON) : Album :=
  let photos := (asArr (jGetD data (pyStr "photos") (.arr []))).map parsePhoto
  let cp := jGetD data (pyStr "cover_photo") .null
  { name := decodeJSONText (jGetD data (pyStr "name") (.str (pyStr "Untitled Album")))
    description := decodeJSONText (jGetD data (pyStr "description") (.str []))
    photos := photos
    cover :=
      if truthy cp then jGetStr cp (pyStr "uri")
      else
        match photos with
        | [] => none
        | p :: _ => p.uri }

/-- Model of `load_albums()`, parametrised by the parse results of the album files in
lexicographic filename order (`none` models a `load_json` failure).
`if not data: continue` skips failures and falsy parses alike, and an album
is appended only when its photo list is non-empty. -/
def load_albums (files : List (Option JSON)) : List Album :=
  files.filterMap
    (fun f =>
      match f with
      | none => none
      | some d =>
        if truthy d then
          let album := parseAlbum d
          if album.photos.isEmpty then none else some album
        else none)

/-- The code points matched by `\s` in a Python `str` regex: exactly the
characters for which `str.isspace()` holds. -/
def isPySpace (c : Nat) : Bool :=
  (9 ≤ c && c ≤ 13) || (28 ≤ c && c ≤ 31) || c = 32 || c = 133 || c = 160 ||
  c = 5760 || (8192 ≤ c && c ≤ 8202) || c = 8232 || c = 8233 || c = 8239 ||
  c = 8287 || c = 12288

/-- One character of the URL body class of
`r'(https?://[^\s<>"{}|\\^`[\]]+)'`: anything except whitespace and the
eleven listed code points (`<` `>` `"` 123 125 `|` `\` `^` 96 `[` `]`). -/
def urlBodyChar (c : Nat) : Bool :=
  !(isPySpace c || c = 60 || c = 62 || c = 34 || c = 123 || c = 125 ||
    c = 124 || c = 92 || c = 94 || c = 96 || c = 91 || c = 93)

/-- The mandatory scheme part of the URL regex: `https?://`, i.e. `http`,
an optional `s`, then `://`.  Returns the consumed scheme and the remainder.
(The two patterns are distinguished by the fifth character, `s` vs `:`, so
the regex's optional-`s` backtracking never changes the outcome.) -/
def stripScheme : List Nat → Option (List Nat × List Nat)
  | 104 :: 116 :: 116 :: 112 :: 115 :: 58 :: 47 :: 47 :: rest =>
    some ([104, 116, 116, 112, 115, 58, 47, 47], rest)
  | 104 :: 116 :: 116 :: 112 :: 58 :: 47 :: 47 :: rest =>
    some ([104, 116, 116, 112, 58, 47, 47], rest)
  | _ => none

/-- Regex match anchored at the head of `cs`: scheme followed by the greedy
non-empty run of URL-body characters, returning the matched URL and the rest
of the input. -/
def matchUrl (cs : List Nat) : Option (List Nat × List Nat) :=
  match stripScheme cs with
  | some (scheme, rest) =>
    if (rest.takeWhile urlBodyChar).isEmpty then none
    else some (scheme ++ rest.takeWhile urlBodyChar, rest.dropWhile urlBodyChar)
  | none => none

/-- The replacement template
`<a href="\1" target="_blank" rel="noopener">\1</a>` instantiated at a match. -/
def anchorFor (url : List Nat) : List Nat :=
  pyStr "<a href=\"" ++ url ++ pyStr "\" target=\"_blank\" rel=\"noopener\">" ++
    url ++ pyStr "</a>"

/-- The `re.sub` scan: at each position try the pattern; on a match emit the
replacement and resume after the match, otherwise copy one character.  Fuel
bounds the recursion; `fuel = cs.length` always suffices because a match
consumes at least one character (`matchUrl_rest_length` below). -/
def linkifyAux : Nat → List Nat → List Nat
  | 0, cs => cs
  | _ + 1, [] => []
  | fuel + 1, c :: cs =>
    match matchUrl (c :: cs) with
    | some (url, rest) => anchorFor url ++ linkifyAux fuel rest
    | none => c :: linkifyAux fuel cs

/-- Model of `linkify(text)`: `if not text: return ""` then
`re.sub(url_pattern, r'<a href="\1" target="_blank" rel="noopener">\1</a>', text)`. -/
def linkify (text : List Nat) : List Nat :=
  if text.isEmpty then [] else linkifyAux text.length text

/-- Model of `PurePosixPath(uri).name`: split on `/`, drop empty and `.` components
(which pathlib normalises away), and take the last remaining component
(empty when none remains, e.g. for `/` or `.`). -/
def splitSlash : List Nat → List (List Nat)
  | [] => [[]]
  | c :: cs =>
    let r := splitSlash cs
    if c = 47 then [] :: r
    else
      match r with
      | h :: t => (c :: h) :: t
      | [] => [[c]]

/-- Model of `Path(uri).name` (the script runs on a POSIX file system). -/
def pathName (uri : List Nat) : List Nat :=
  (((splitSlash uri).filter
      (fun comp => !comp.isEmpty && !(comp == [46]))).getLast?).getD []

/-- Model of `get_media_path(uri)`: `if not uri: return None` (absent *or empty*
input), else `f"media/{Path(uri).name}"`. -/
def get_media_path : Option (List Nat) → Option (List Nat)
  | none => none
  | some uri =>
    if uri.isEmpty then none else some (pyStr "media/" ++ pathName uri)

/-- The media loop of `generate_post_html`: the `src` paths of the emitted
`<img>` elements, one per media entry whose `get_media_path` result is truthy
(`if media_path:` — `None` and the empty string are skipped). -/
def postMediaPaths (post : Post) : List (List Nat) :=
  post.media.filterMap
    (fun m =>
      match get_media_path m.uri with
      | some p => if p.isEmpty then none else some p
      | none => none)

/-- The extension allow-list of `copy_media_files`:
`file.endswith(('.jpg', '.jpeg', '.png', '.gif', '.mp4', '.webp'))`. -/
def mediaExts : List (List Nat) :=
  [pyStr ".jpg", pyStr ".jpeg", pyStr ".png", pyStr ".gif", pyStr ".mp4",
   pyStr ".webp"]

/-- Test `file.endswith(exts)`: true when some allow-listed extension is a suffix
of the filename (case-sensitive, lowercase only). -/
def allowedMedia (f : List Nat) : Bool :=
  mediaExts.any (fun e => e.isSuffixOf f)

/-- One iteration of the walk loop of `copy_media_files`: state is
(filenames present in `media/`, filenames copied so far this run); a file is
copied only when its extension is allow-listed and `not dst.exists()`. -/
def copyStep : List (List Nat) × List (List Nat) → List Nat →
    List (List Nat) × List (List Nat)
  | (out, copied), f =>
    if allowedMedia f ∧ ¬ f ∈ out then (out ++ [f], copied ++ [f])
    else (out, copied)

/-- Model of `copy_media_files()`, parametrised by the bare filenames yielded by
`os.walk` over the source tree (in walk order) and the filenames initially
present in the flat output directory `media/`.  Returns the final output
directory contents and the list of files copied during the run. -/
def copy_media_files (src : List (List Nat)) (out0 : List (List Nat)) :
    List (List Nat) × List (List Nat) :=
  src.foldl copyStep (out0, [])

/-! ## Lemmas about `html_escape` -/

theorem html_escape_nil : html_escape [] = [] := rfl

theorem html_escape_cons (c : Nat) (s : List Nat) :
    html_escape (c :: s) = escChar c ++ html_escape s := by
  simp [html_escape]

theorem escChar_length_pos (c : Nat) : 0 < (escChar c).length := by
  unfold escChar
  split
  · decide
  · split
    · decide
    · split
      · decide
      · split
        · decide
        · split
          · decide
          · simp

theorem escChar_of_not_escapable (c : Nat) (h : escapable c = false) :
    escChar c = [c] := by
  unfold escapable at h
  simp only [Bool.or_eq_false_iff, decide_eq_false_iff_not] at h
  obtain ⟨⟨⟨⟨h1, h2⟩, h3⟩, h4⟩, h5⟩ := h
  unfold escChar
  simp [h1, h2, h3, h4, h5]

theorem amp_mem_escChar (c : Nat) (h : escapable c = true) : 38 ∈ escChar c := by
  unfold escapable at h
  simp only [Bool.or_eq_true, decide_eq_true_eq] at h
  rcases h with ((((h | h) | h) | h) | h) <;> subst h <;> decide

theorem length_le_html_escape (s : List Nat) :
    s.length ≤ (html_escape s).length := by
  induction s with
  | nil => simp [html_escape]
  | cons c cs ih =>
    rw [html_escape_cons]
    simp only [List.length_cons, List.length_append]
    have := escChar_length_pos c
    omega

theorem length_lt_html_escape (s : List Nat) (c : Nat) (hc : c ∈ s)
    (hesc : escapable c = true) : s.length < (html_escape s).length := by
  induction s with
  | nil => cases hc
  | cons d ds ih =>
    rw [html_escape_cons]
    simp only [List.length_cons, List.length_append]
    rcases List.mem_cons.mp hc with h | h
    · subst h
      have h2 : 2 ≤ (escChar c).length := by
        unfold escapable at hesc
        simp only [Bool.or_eq_true, decide_eq_true_eq] at hesc
        rcases hesc with ((((h | h) | h) | h) | h) <;> subst h <;> decide
      have := length_le_html_escape ds
      omega
    · have := ih h
      have := escChar_length_pos d
      omega

theorem escape_eq_self_of_no_escapable (s : List Nat)
    (h : ∀ c ∈ s, escapable c = false) : html_escape s = s := by
  induction s with
  | nil => rfl
  | cons c cs ih =>
    rw [html_escape_cons, escChar_of_not_escapable c (h c (List.mem_cons_self c cs)),
      ih (fun d hd => h d (List.mem_cons_of_mem c hd))]
    rfl

theorem amp_mem_html_escape (s : List Nat) (c : Nat) (hc : c ∈ s)
    (hesc : escapable c = true) : 38 ∈ html_escape s := by
  unfold html_escape
  exact List.mem_flatMap.mpr ⟨c, hc, amp_mem_escChar c hesc⟩

/-- C1 counterexample: `html.escape` is **not** idempotent.  At the one-character
string `"&"` the claimed equation `escape(escape(s)) = escape(s)` fails:
escaping once gives `"&amp;"`, escaping again gives `"&amp;amp;"`. -/
theorem c1_counterexample :
    html_escape (pyStr "&") = pyStr "&amp;" ∧
    html_escape (html_escape (pyStr "&")) = pyStr "&amp;amp;" ∧
    html_escape (html_escape (pyStr "&")) ≠ html_escape (pyStr "&") := by
  refine ⟨by decide, by decide, by decide⟩

/-- C1 (amended): escaping as used in the render pipeline is idempotent on a
string exactly when the string contains none of the five escaped characters
`&` `<` `>` `"` `'`; on any string containing one of them, re-running the
escape step double-escapes (the `&` of an entity is escaped again). -/
theorem c1_escape_idempotent_iff (s : List Nat) :
    html_escape (html_escape s) = html_escape s ↔ ∀ c ∈ s, escapable c = false := by
  constructor
  · intro h
    by_contra hex
    push_neg at hex
    obtain ⟨c, hc, hne⟩ := hex
    have hesc : escapable c = true := by
      cases h' : escapable c
      · exact absurd h' hne
      · rfl
    have hamp : 38 ∈ html_escape s := amp_mem_html_escape s c hc hesc
    have hlt : (html_escape s).length < (html_escape (html_escape s)).length :=
      length_lt_html_escape (html_escape s) 38 hamp (by decide)
    rw [h] at hlt
    exact lt_irrefl _ hlt
  · intro h
    have h' := escape_eq_self_of_no_escapable s h
    rw [h', h']

/-- C1 witness: the amended theorem applied at the concrete escapable-free
string `"ab"`. -/
theorem c1_witness :
    html_escape (html_escape (pyStr "ab")) = html_escape (pyStr "ab") :=
  (c1_escape_idempotent_iff (pyStr "ab")).mpr (by decide)

/-- C2: behaviour of the text decode operation.  Absent input yields the empty
string; when the latin-1 re-encoding and UTF-8 decoding both succeed the
result is the round-trip; when either step fails (`UnicodeEncodeError` from a
code point above 255, or `UnicodeDecodeError` from invalid UTF-8 bytes) the
original text is returned unchanged.  The function is total, so no exception
propagates. -/
theorem c2_decode_facebook_text_spec :
    decode_facebook_text none = [] ∧
    (∀ s bytes r, latin1Encode s = some bytes → utf8Decode bytes = some r →
      decode_facebook_text (some s) = r) ∧
    (∀ s, latin1Encode s = none → decode_facebook_text (some s) = s) ∧
    (∀ s bytes, latin1Encode s = some bytes → utf8Decode bytes = none →
      decode_facebook_text (some s) = s) := by
  refine ⟨rfl, ?_, ?_, ?_⟩
  · intro s bytes r h1 h2
    simp only [decode_facebook_text, h1, h2]
  · intro s h1
    simp only [decode_facebook_text, h1]
  · intro s bytes h1 h2
    simp only [decode_facebook_text, h1, h2]

/-- C2 witness: the spec theorem applied at the mis-encoded string `"TÃ©st"`
(round-trips to `"Tést"`), a string with a code point above 255 (encode
failure) and a string whose latin-1 bytes are invalid UTF-8 (decode failure). -/
theorem c2_witness :
    decode_facebook_text (some (pyStr "TÃ©st")) = pyStr "Tést" ∧
    decode_facebook_text (some [256]) = [256] ∧
    decode_facebook_text (some [195]) = [195] :=
  ⟨c2_decode_facebook_text_spec.2.1 (pyStr "TÃ©st") [84, 195, 169, 115, 116]
      (pyStr "Tést") (by decide) (by decide),
   c2_decode_facebook_text_spec.2.2.1 [256] (by decide),
   c2_decode_facebook_text_spec.2.2.2 [195] [195] (by decide) (by decide)⟩

/-! ## C3: ordering of `load_posts` -/

/-- The display order of the feed: later timestamp first. -/
def tsDesc (a b : Post) : Prop := b.timestamp ≤ a.timestamp

instance : DecidableRel tsDesc := fun a b =>
  inferInstanceAs (Decidable (b.timestamp ≤ a.timestamp))

instance : IsTotal Post tsDesc := ⟨fun a b => le_total b.timestamp a.timestamp⟩

instance : IsTrans Post tsDesc := ⟨fun _ _ _ h1 h2 => le_trans h2 h1⟩

theorem sortPosts_eq (posts : List Post) :
    sortPosts posts = List.insertionSort tsDesc posts := rfl

theorem sortPosts_sorted (posts : List Post) :
    List.Sorted tsDesc (sortPosts posts) :=
  List.sorted_insertionSort tsDesc posts

theorem load_posts_sorted (data : Option JSON) :
    List.Sorted tsDesc (load_posts data) := by
  unfold load_posts
  match data with
  | none => exact List.sorted_nil
  | some (.null) => exact List.sorted_nil
  | some (.bool b) => exact List.sorted_nil
  | some (.num n) => exact List.sorted_nil
  | some (.str s) => exact List.sorted_nil
  | some (.obj fields) => exact List.sorted_nil
  | some (.arr items) =>
    by_cases h : items.isEmpty <;> simp [h, sortPosts_sorted]

/-- C3 counterexample: with a negative timestamp in the input, the
zero-timestamp post is *not* the oldest and does *not* appear at the end:
the rendered order here is `[0, -1]`, so the zero-timestamp post is followed
by another post. -/
theorem c3_counterexample :
    (load_posts (some (.arr [.obj [(pyStr "timestamp", .num (-1))],
        .obj [(pyStr "timestamp", .num 0)]]))).map Post.timestamp = [0, -1] := by
  decide

/-- C3 (amended): the sequence returned by `load_posts` always has
non-increasing timestamps; **provided every timestamp is non-negative**, any
post with timestamp zero is followed only by posts with timestamp zero (so
the zero/absent-timestamp posts form the tail of the sequence); and an absent
timestamp key defaults to 0. -/
theorem c3_load_posts_order (data : Option JSON) :
    List.Sorted tsDesc (load_posts data) ∧
    ((∀ p ∈ load_posts data, 0 ≤ p.timestamp) →
      ∀ pre p mid q suf, load_posts data = pre ++ p :: (mid ++ q :: suf) →
        p.timestamp = 0 → q.timestamp = 0) ∧
    (∀ fields, lookupLast fields (pyStr "timestamp") = none →
      (parsePost (.obj fields)).timestamp = 0) := by
  refine ⟨load_posts_sorted data, ?_, ?_⟩
  · intro hnn pre p mid q suf heq hp0
    have hsorted := load_posts_sorted data
    rw [heq] at hsorted
    have hpq : tsDesc p q := by
      have h2 := (List.pairwise_append.mp hsorted).2.1
      have h3 := (List.pairwise_cons.mp h2).1
      exact h3 q (by simp)
    have hq : q ∈ load_posts data := by
      rw [heq]; simp
    have h0q := hnn q hq
    unfold tsDesc at hpq
    rw [hp0] at hpq
    exact le_antisymm hpq h0q
  · intro fields h
    simp only [parsePost, jGetInt, jGet, h]

/-- C3 witness: the amended theorem applied at a concrete two-post input with
timestamps `[0, 0]` (conjunct 2) and at an item with no timestamp key
(conjunct 3). -/
theorem c3_witness :
    (parsePost (.obj [(pyStr "timestamp", .num 0), (pyStr "x", .null)])).timestamp = 0 ∧
    (parsePost (.obj [])).timestamp = 0 :=
  ⟨(c3_load_posts_order (some (.arr [.obj [(pyStr "timestamp", .num 0)],
      .obj [(pyStr "timestamp", .num 0), (pyStr "x", .null)]]))).2.1
    (by decide)
    [] (parsePost (.obj [(pyStr "timestamp", .num 0)])) []
    (parsePost (.obj [(pyStr "timestamp", .num 0), (pyStr "x", .null)])) []
    (by decide) (by decide),
   (c3_load_posts_order none).2.2 [] rfl⟩

/-! ## C4: albums returned by `load_albums` always have photos -/

/-- C4: every album in the sequence returned by `load_albums` has a non-empty
photo list — an album whose parsed photo list is empty is discarded by the
final `if album['photos']:` check and therefore never reaches any renderer. -/
theorem c4_load_albums_photos_nonempty (files : List (Option JSON)) (a : Album)
    (ha : a ∈ load_albums files) : a.photos ≠ [] := by
  unfold load_albums at ha
  obtain ⟨f, _, heq⟩ := List.mem_filterMap.mp ha
  match f with
  | none => simp at heq
  | some d =>
    simp only at heq
    split at heq
    next ht =>
      split at heq
      next he => simp at heq
      next he =>
        injection heq with h
        rw [← h]
        intro hnil
        exact he (by simp [hnil])
    next ht => simp at heq

/-- C4 witness: the theorem applied to a concrete one-photo album file. -/
theorem c4_witness :
    (parseAlbum (.obj [(pyStr "photos",
        .arr [.obj [(pyStr "uri", .str (pyStr "p.jpg"))]])])).photos ≠ [] :=
  c4_load_albums_photos_nonempty
    [some (.obj [(pyStr "photos", .arr [.obj [(pyStr "uri", .str (pyStr "p.jpg"))]])])]
    (parseAlbum (.obj [(pyStr "photos", .arr [.obj [(pyStr "uri", .str (pyStr "p.jpg"))]])]))
    (by decide)

/-! ## C5: album cover resolution -/

/-- C5 counterexample: an album JSON in which a `cover_photo` entry *is
present* (the empty object, which is falsy in Python) and has no media
reference, yet the resolved cover is the first photo's reference, not the
cover_photo's: `if data.get('cover_photo'):` tests truthiness, not presence. -/
theorem c5_counterexample :
    jGet (.obj [(pyStr "cover_photo", .obj []),
        (pyStr "photos", .arr [.obj [(pyStr "uri", .str (pyStr "first.jpg"))]])])
      (pyStr "cover_photo") = some (.obj []) ∧
    jGetStr (.obj []) (pyStr "uri") = none ∧
    (parseAlbum (.obj [(pyStr "cover_photo", .obj []),
        (pyStr "photos", .arr [.obj [(pyStr "uri", .str (pyStr "first.jpg"))]])])).cover
      = some (pyStr "first.jpg") :=
  ⟨rfl, rfl, by decide⟩

/-- C5 (amended): the resolved cover is the explicit `cover_photo`'s media
reference when a cover_photo entry is present **with a truthy value**
(a non-empty object); when the entry is absent — or present but falsy, such
as `null` or `{}` — and the photo list is non-empty, it is the first photo's
media reference. -/
theorem c5_cover_resolution :
    (∀ d cp, jGet d (pyStr "cover_photo") = some cp → truthy cp = true →
      (parseAlbum d).cover = jGetStr cp (pyStr "uri")) ∧
    (∀ d, (∀ cp, jGet d (pyStr "cover_photo") = some cp → truthy cp = false) →
      ∀ p ps, (parseAlbum d).photos = p :: ps → (parseAlbum d).cover = p.uri) := by
  constructor
  · intro d cp h ht
    simp only [parseAlbum, jGetD, h, Option.getD_some, ht, if_true]
  · intro d hcp p ps hph
    have ht : truthy (jGetD d (pyStr "cover_photo") .null) = false := by
      unfold jGetD
      cases h : jGet d (pyStr "cover_photo") with
      | none => rfl
      | some cp => exact hcp cp h
    simp only [parseAlbum] at hph ⊢
    rw [ht]
    simp only [Bool.false_eq_true, if_false]
    rw [hph]

/-- C5 witness: the amended theorem applied at a concrete album with a truthy
`cover_photo` (conjunct 1) and at one with no `cover_photo` entry
(conjunct 2). -/
theorem c5_witness :
    (parseAlbum (.obj [(pyStr "cover_photo", .obj [(pyStr "uri", .str (pyStr "c.jpg"))]),
        (pyStr "photos", .arr [.obj [(pyStr "uri", .str (pyStr "p.jpg"))]])])).cover
      = jGetStr (.obj [(pyStr "uri", .str (pyStr "c.jpg"))]) (pyStr "uri") ∧
    (parseAlbum (.obj [(pyStr "photos",
        .arr [.obj [(pyStr "uri", .str (pyStr "p.jpg"))]])])).cover
      = (parsePhoto (.obj [(pyStr "uri", .str (pyStr "p.jpg"))])).uri :=
  ⟨c5_cover_resolution.1 _ (.obj [(pyStr "uri", .str (pyStr "c.jpg"))]) rfl (by decide),
   c5_cover_resolution.2 _ (fun cp h => by cases h) _ [] (by decide)⟩

/-! ## C6: the attachment scan of `load_posts` -/

theorem scanStep_fst (acc : List Media × Option (List Nat)) (d : JSON) :
    (scanStep acc d).1 =
      if hasKey d (pyStr "media") then acc.1 ++ [mkMedia d] else acc.1 := by
  unfold scanStep
  by_cases hm : hasKey d (pyStr "media") = true <;>
    by_cases he : hasKey d (pyStr "external_context") = true <;>
      simp [hm, he]

theorem scanStep_snd (acc : List Media × Option (List Nat)) (d : JSON) :
    (scanStep acc d).2 =
      if hasKey d (pyStr "external_context") then urlOfEntry d else acc.2 := by
  unfold scanStep
  by_cases hm : hasKey d (pyStr "media") = true <;>
    by_cases he : hasKey d (pyStr "external_context") = true <;>
      simp [hm, he]

theorem scan_foldl_fst (entries : List JSON) :
    ∀ acc : List Media × Option (List Nat),
      (entries.foldl scanStep acc).1 =
        acc.1 ++ ((entries.filter (fun d => hasKey d (pyStr "media"))).map mkMedia) := by
  induction entries with
  | nil => intro acc; simp
  | cons d rest ih =>
    intro acc
    rw [List.foldl_cons, ih, scanStep_fst, List.filter_cons]
    by_cases hm : hasKey d (pyStr "media") = true <;> simp [hm]

theorem scan_foldl_snd (entries : List JSON) :
    ∀ acc : List Media × Option (List Nat),
      (entries.foldl scanStep acc).2 =
        match entries.reverse.find? (fun d => hasKey d (pyStr "external_context")) with
        | some d => urlOfEntry d
        | none => acc.2 := by
  induction entries with
  | nil => intro acc; simp
  | cons d rest ih =>
    intro acc
    rw [List.foldl_cons, ih, List.reverse_cons, List.find?_append]
    cases hf : rest.reverse.find? (fun x => hasKey x (pyStr "external_context")) with
    | some d' => simp
    | none =>
      simp only [Option.none_or]
      rw [scanStep_snd]
      by_cases he : hasKey d (pyStr "external_context") = true <;>
        simp [he, List.find?]

/-- The URL the ACTUAL scan keeps: that of the *last* attachment-data entry
(in scan order) carrying an `'external_context'` key, because the loop body
overwrites `post['external_url']` on every hit and never breaks. -/
def lastExtUrl (entries : List JSON) : Option (List Nat) :=
  match entries.reverse.find? (fun d => hasKey d (pyStr "external_context")) with
  | some d => urlOfEntry d
  | none => none

/-- The behaviour the claim asserts, written from the claim's words: the URL
of the *first* `'external_context'` entry in scan order. -/
def firstExtUrl_claimed (entries : List JSON) : Option (List Nat) :=
  match entries.find? (fun d => hasKey d (pyStr "external_context")) with
  | some d => urlOfEntry d
  | none => none

/-- C6 counterexample: a post item with two attachments, each carrying an
`external_context` URL.  The claim says the first URL is kept, but the code
keeps the last one. -/
theorem c6_counterexample :
    firstExtUrl_claimed (attachmentEntries (.obj [(pyStr "attachments", .arr [
        .obj [(pyStr "data", .arr [.obj [(pyStr "external_context",
          .obj [(pyStr "url", .str (pyStr "http://first.example"))])]])],
        .obj [(pyStr "data", .arr [.obj [(pyStr "external_context",
          .obj [(pyStr "url", .str (pyStr "http://second.example"))])]])]])]))
      = some (pyStr "http://first.example") ∧
    (parsePost (.obj [(pyStr "attachments", .arr [
        .obj [(pyStr "data", .arr [.obj [(pyStr "external_context",
          .obj [(pyStr "url", .str (pyStr "http://first.example"))])]])],
        .obj [(pyStr "data", .arr [.obj [(pyStr "external_context",
          .obj [(pyStr "url", .str (pyStr "http://second.example"))])]])]])])).external_url
      = some (pyStr "http://second.example") ∧
    some (pyStr "http://first.example") ≠ some (pyStr "http://second.example") := by
  refine ⟨by decide, by decide, by decide⟩

/-- C6 (amended): for every raw post object, `load_posts` collects **all**
media references across all nested attachment-data entries in scan order, and
sets the post's external link URL to the url field of the **last**
`external_context` entry encountered in attachment scan order (absent when no
such entry exists). -/
theorem c6_attachment_scan (item : JSON) :
    (parsePost item).media =
      ((attachmentEntries item).filter (fun d => hasKey d (pyStr "media"))).map mkMedia ∧
    (parsePost item).external_url = lastExtUrl (attachmentEntries item) := by
  constructor
  · show (scanAttachments (attachmentEntries item)).1 = _
    rw [scanAttachments, scan_foldl_fst]
    rfl
  · show (scanAttachments (attachmentEntries item)).2 = _
    rw [scanAttachments, scan_foldl_snd]
    unfold lastExtUrl
    cases (attachmentEntries item).reverse.find?
        (fun d => hasKey d (pyStr "external_context")) <;> rfl

/-! ## C7: `linkify` -/

theorem stripScheme_eq (cs s r : List Nat) (h : stripScheme cs = some (s, r)) :
    cs = s ++ r ∧ 0 < s.length := by
  unfold stripScheme at h
  split at h
  · rw [Option.some.injEq, Prod.mk.injEq] at h
    obtain ⟨hs, hr⟩ := h
    subst hs; subst hr
    exact ⟨rfl, by decide⟩
  · rw [Option.some.injEq, Prod.mk.injEq] at h
    obtain ⟨hs, hr⟩ := h
    subst hs; subst hr
    exact ⟨rfl, by decide⟩
  · exact Option.noConfusion h

theorem matchUrl_some (cs u rest : List Nat) (h : matchUrl cs = some (u, rest)) :
    rest.length < cs.length ∧ 0 < u.length := by
  unfold matchUrl at h
  split at h
  · rename_i scheme r heq
    split at h
    · exact Option.noConfusion h
    · rw [Option.some.injEq, Prod.mk.injEq] at h
      obtain ⟨hu, hrest⟩ := h
      obtain ⟨hcs, hs⟩ := stripScheme_eq cs scheme r heq
      constructor
      · have h1 : rest.length ≤ r.length := by
          rw [← hrest]
          exact (List.dropWhile_sublist urlBodyChar).length_le
        have h2 : cs.length = scheme.length + r.length := by
          rw [hcs, List.length_append]
        omega
      · rw [← hu, List.length_append]
        omega
  · exact Option.noConfusion h

theorem linkifyAux_nil (fuel : Nat) : linkifyAux fuel [] = [] := by
  cases fuel <;> rfl

theorem linkifyAux_fuel_irrel (fuel : Nat) :
    ∀ (fuel' : Nat) (cs : List Nat), cs.length ≤ fuel → cs.length ≤ fuel' →
      linkifyAux fuel cs = linkifyAux fuel' cs := by
  induction fuel with
  | zero =>
    intro fuel' cs h _
    have : cs = [] := List.length_eq_zero.mp (Nat.le_zero.mp h)
    subst this
    rw [linkifyAux_nil, linkifyAux_nil]
  | succ f ih =>
    intro fuel' cs h h'
    cases cs with
    | nil => rw [linkifyAux_nil, linkifyAux_nil]
    | cons c cs' =>
      cases fuel' with
      | zero => simp at h'
      | succ f' =>
        cases hm : matchUrl (c :: cs') with
        | some ur =>
          obtain ⟨u, rest⟩ := ur
          have hlt := (matchUrl_some (c :: cs') u rest hm).1
          have hb : rest.length ≤ f ∧ rest.length ≤ f' := by
            simp only [List.length_cons] at h h' hlt
            omega
          simp only [linkifyAux, hm]
          rw [ih f' rest hb.1 hb.2]
        | none =>
          have hb : cs'.length ≤ f ∧ cs'.length ≤ f' := by
            simp only [List.length_cons] at h h'
            omega
          simp only [linkifyAux, hm]
          rw [ih f' cs' hb.1 hb.2]

theorem linkifyAux_no_match (fuel : Nat) :
    ∀ t : List Nat, (∀ n, n < t.length → matchUrl (t.drop n) = none) →
      linkifyAux fuel t = t := by
  induction fuel with
  | zero => intro t _; rfl
  | succ f ih =>
    intro t h
    cases t with
    | nil => rfl
    | cons c cs =>
      have h0 : matchUrl (c :: cs) = none := by
        have := h 0 (by simp)
        simpa using this
      simp only [linkifyAux, h0]
      rw [ih cs (fun n hn => by
        have := h (n + 1) (by simp; omega)
        simpa [List.drop_succ_cons] using this)]

theorem linkifyAux_decomp (pre : List Nat) :
    ∀ (fuel : Nat) (url post : List Nat),
      (pre ++ url ++ post).length ≤ fuel →
      (∀ n, n < pre.length → matchUrl ((pre ++ url ++ post).drop n) = none) →
      matchUrl (url ++ post) = some (url, post) →
      linkifyAux fuel (pre ++ url ++ post) =
        pre ++ anchorFor url ++ linkifyAux (fuel - pre.length - 1) post := by
  induction pre with
  | nil =>
    intro fuel url post hfuel _ hm
    have hu := (matchUrl_some (url ++ post) url post hm).2
    cases fuel with
    | zero =>
      exfalso
      simp only [List.nil_append, List.length_append] at hfuel
      omega
    | succ f =>
      cases url with
      | nil => simp at hu
      | cons c url' =>
        simp only [List.nil_append, List.cons_append] at hm ⊢
        simp only [linkifyAux, hm]
        try simp
  | cons c pre' ih =>
    intro fuel url post hfuel hpre hm
    cases fuel with
    | zero =>
      exfalso
      simp only [List.cons_append, List.length_cons] at hfuel
      omega
    | succ f =>
      have h0 : matchUrl (c :: (pre' ++ url ++ post)) = none := by
        have := hpre 0 (by simp)
        simpa using this
      simp only [List.cons_append] at h0 ⊢
      simp only [linkifyAux, h0]
      rw [ih f url post (by simp at hfuel ⊢; omega)
        (fun n hn => by
          have := hpre (n + 1) (by simp; omega)
          simpa [List.drop_succ_cons] using this) hm]
      simp only [List.length_cons]
      have : f - pre'.length - 1 = f + 1 - (pre'.length + 1) - 1 := by omega
      rw [← this]
      try simp

/-- C7: behaviour of `linkify`.
1. On `"Visit https://example.com/page now"` it produces exactly one anchor
   element whose href and label are the URL, opening in a new browsing
   context with `rel="noopener"`, with the surrounding text unchanged.
2. Text in which no position matches the URL pattern is returned untouched.
3. Whenever the input splits as `pre ++ url ++ post` with no URL-pattern
   match starting inside `pre` and `url` the (maximal, greedy) match at that
   position, the output is `pre` unchanged, the anchor element wrapping
   `url`, and the rewritten `post` — i.e. every maximal URL match is wrapped
   and all non-matching text is left untouched. -/
theorem c7_linkify :
    linkify (pyStr "Visit https://example.com/page now") =
      pyStr "Visit <a href=\"https://example.com/page\" target=\"_blank\" rel=\"noopener\">https://example.com/page</a> now" ∧
    (∀ t, (∀ n, n < t.length → matchUrl (t.drop n) = none) → linkify t = t) ∧
    (∀ pre url post,
      (∀ n, n < pre.length → matchUrl ((pre ++ url ++ post).drop n) = none) →
      matchUrl (url ++ post) = some (url, post) →
      linkify (pre ++ url ++ post) = pre ++ anchorFor url ++ linkify post) := by
  refine ⟨by decide, ?_, ?_⟩
  · intro t h
    unfold linkify
    by_cases he : t.isEmpty
    · rw [if_pos he]
      rw [List.isEmpty_iff] at he
      rw [he]
    · rw [if_neg he]
      exact linkifyAux_no_match t.length t h
  · intro pre url post hpre hm
    have hu := (matchUrl_some (url ++ post) url post hm).2
    have hne : (pre ++ url ++ post).isEmpty = false := by
      rw [List.isEmpty_eq_false_iff_exists_mem]
      cases url with
      | nil => simp at hu
      | cons c url' => exact ⟨c, by simp⟩
    unfold linkify
    rw [hne]
    simp only [Bool.false_eq_true, if_false]
    rw [linkifyAux_decomp pre (pre ++ url ++ post).length url post le_rfl hpre hm]
    by_cases hp : post.isEmpty
    · rw [List.isEmpty_iff] at hp
      rw [hp]
      simp [linkifyAux_nil]
    · rw [if_neg hp]
      rw [linkifyAux_fuel_irrel ((pre ++ url ++ post).length - pre.length - 1)
        post.length post (by simp only [List.length_append]; omega) le_rfl]

/-- C7 witness: the general conjuncts applied at the concrete URL-free string
`"abc"` and at the concrete split `"Go " ++ "http://a" ++ " x"`. -/
theorem c7_witness :
    linkify (pyStr "abc") = pyStr "abc" ∧
    linkify (pyStr "Go http://a x") =
      pyStr "Go " ++ anchorFor (pyStr "http://a") ++ linkify (pyStr " x") := by
  constructor
  · exact c7_linkify.2.1 (pyStr "abc") (by decide)
  · have h := c7_linkify.2.2 (pyStr "Go ") (pyStr "http://a") (pyStr " x")
      (by decide) (by decide)
    rw [show pyStr "Go http://a x" = pyStr "Go " ++ pyStr "http://a" ++ pyStr " x"
      from by decide]
    exact h

/-! ## C8: media path resolution and rendering -/

/-- C8 counterexample.  Two failures of the claim at concrete inputs:
the *non-absent* empty-string reference resolves to `None` (not to
`"media/" + filename`), because `if not uri:` tests truthiness; and the
reference `"/"`, whose path has **no** resolvable filename, still produces a
rendered media element — its resolved path is the truthy string `"media/"`,
so `generate_post_html` emits an `<img>` with that `src` rather than
silently omitting it. -/
theorem c8_counterexample :
    get_media_path (some []) = none ∧
    get_media_path (some (pyStr "/")) = some (pyStr "media/") ∧
    postMediaPaths ⟨0, [], [], [⟨some (pyStr "/"), []⟩], none⟩ = [pyStr "media/"] := by
  refine ⟨by decide, by decide, by decide⟩

/-- C8 (amended): absent **or empty** input yields absent output; every
non-empty source reference resolves to `"media/"` plus its filename
component (possibly empty, e.g. for `"/"`); and the post renderer emits a
media element exactly for the media entries with a present, non-empty
`uri` — an entry whose uri is absent or empty is silently omitted, while a
non-empty uri with no resolvable filename still yields an element with
path `"media/"`. -/
theorem c8_media_path_resolution :
    get_media_path none = none ∧
    get_media_path (some []) = none ∧
    (∀ uri, uri ≠ [] →
      get_media_path (some uri) = some (pyStr "media/" ++ pathName uri)) ∧
    (∀ post, postMediaPaths post = post.media.filterMap
      (fun m =>
        match m.uri with
        | none => none
        | some u =>
          if u.isEmpty then none else some (pyStr "media/" ++ pathName u))) := by
  refine ⟨rfl, rfl, ?_, ?_⟩
  · intro uri h
    simp only [get_media_path]
    rw [if_neg (by simp [List.isEmpty_iff, h])]
  · intro post
    unfold postMediaPaths
    refine congrArg (fun f => List.filterMap f post.media) (funext fun m => ?_)
    cases hmu : m.uri with
    | none => rfl
    | some u =>
      by_cases hu : u.isEmpty = true
      · simp [get_media_path, hu]
      · have hne : (pyStr "media/" ++ pathName u).isEmpty = false := by
          have hm' : pyStr "media/" = 109 :: pyStr "edia/" := by decide
          rw [hm']
          rfl
        simp [get_media_path, hu, hne]

/-- C8 witness: the amended theorem applied at the reference `"a/b/c.jpg"`
and at a concrete post with one resolvable and one absent media reference. -/
theorem c8_witness :
    get_media_path (some (pyStr "a/b/c.jpg")) =
      some (pyStr "media/" ++ pathName (pyStr "a/b/c.jpg")) ∧
    postMediaPaths ⟨0, [], [],
        [⟨some (pyStr "x/y.jpg"), []⟩, ⟨none, []⟩], none⟩ =
      [pyStr "media/" ++ pathName (pyStr "x/y.jpg")] :=
  ⟨c8_media_path_resolution.2.2.1 (pyStr "a/b/c.jpg") (by decide),
   by
    rw [c8_media_path_resolution.2.2.2
      ⟨0, [], [], [⟨some (pyStr "x/y.jpg"), []⟩, ⟨none, []⟩], none⟩]
    decide⟩

/-! ## C9: idempotence of media copying -/

theorem copy_foldl_mem (src : List (List Nat)) :
    ∀ out c f, f ∈ (src.foldl copyStep (out, c)).2 →
      f ∈ c ∨ (allowedMedia f = true ∧ f ∉ out ∧ f ∈ src) := by
  induction src with
  | nil => intro out c f hf; exact Or.inl hf
  | cons d rest ih =>
    intro out c f hf
    rw [List.foldl_cons] at hf
    simp only [copyStep] at hf
    by_cases hd : allowedMedia d = true ∧ ¬ d ∈ out
    · rw [if_pos hd] at hf
      rcases ih (out ++ [d]) (c ++ [d]) f hf with hc | ⟨ha, ho, hs⟩
      · rcases List.mem_append.mp hc with h | h
        · exact Or.inl h
        · have : f = d := by simpa using h
          subst this
          exact Or.inr ⟨hd.1, hd.2, List.mem_cons_self _ _⟩
      · exact Or.inr ⟨ha, fun hmem => ho (List.mem_append.mpr (Or.inl hmem)),
          List.mem_cons_of_mem _ hs⟩
    · rw [if_neg hd] at hf
      rcases ih out c f hf with hc | ⟨ha, ho, hs⟩
      · exact Or.inl hc
      · exact Or.inr ⟨ha, ho, List.mem_cons_of_mem _ hs⟩

theorem copy_foldl_out_mono (src : List (List Nat)) :
    ∀ out c f, f ∈ out → f ∈ (src.foldl copyStep (out, c)).1 := by
  induction src with
  | nil => intro out c f hf; exact hf
  | cons d rest ih =>
    intro out c f hf
    rw [List.foldl_cons]
    simp only [copyStep]
    by_cases hd : allowedMedia d = true ∧ ¬ d ∈ out
    · rw [if_pos hd]
      exact ih (out ++ [d]) (c ++ [d]) f (List.mem_append.mpr (Or.inl hf))
    · rw [if_neg hd]
      exact ih out c f hf

theorem copy_foldl_all_in (src : List (List Nat)) :
    ∀ out c f, f ∈ src → allowedMedia f = true →
      f ∈ (src.foldl copyStep (out, c)).1 := by
  induction src with
  | nil => intro out c f hf _; cases hf
  | cons d rest ih =>
    intro out c f hf ha
    rw [List.foldl_cons]
    simp only [copyStep]
    rcases List.mem_cons.mp hf with h | h
    · subst h
      by_cases hd : allowedMedia f = true ∧ ¬ f ∈ out
      · rw [if_pos hd]
        exact copy_foldl_out_mono rest (out ++ [f]) (c ++ [f]) f (by simp)
      · rw [if_neg hd]
        have hmem : f ∈ out := by
          by_contra hno
          exact hd ⟨ha, hno⟩
        exact copy_foldl_out_mono rest out c f hmem
    · by_cases hd : allowedMedia d = true ∧ ¬ d ∈ out
      · rw [if_pos hd]
        exact ih (out ++ [d]) (c ++ [d]) f h ha
      · rw [if_neg hd]
        exact ih out c f h ha

theorem copy_foldl_noop (src : List (List Nat)) :
    ∀ out c, (∀ f ∈ src, allowedMedia f = true → f ∈ out) →
      src.foldl copyStep (out, c) = (out, c) := by
  induction src with
  | nil => intro out c _; rfl
  | cons d rest ih =>
    intro out c h
    rw [List.foldl_cons]
    simp only [copyStep]
    rw [if_neg (show ¬(allowedMedia d = true ∧ ¬ d ∈ out) from
      fun hd => hd.2 (h d (List.mem_cons_self _ _) hd.1))]
    exact ih out c (fun f hf ha => h f (List.mem_cons_of_mem _ hf) ha)

/-- C9: media copying is filtered and idempotent.
1. A file is copied during a run only if its name ends in one of the
   lowercase extensions `.jpg .jpeg .png .gif .mp4 .webp`, it was not already
   present in the output directory, and it occurs in the walked source.
2. After a run, every allow-listed source file is present in the output
   directory.
3. Running the copy again over unchanged input copies nothing and leaves the
   output directory unchanged (and, being a total function, raises no error
   on already-present files). -/
theorem c9_copy_media_idempotent :
    (∀ src out0 f, f ∈ (copy_media_files src out0).2 →
      allowedMedia f = true ∧ f ∉ out0 ∧ f ∈ src) ∧
    (∀ src out0 f, f ∈ src → allowedMedia f = true →
      f ∈ (copy_media_files src out0).1) ∧
    (∀ src out0, copy_media_files src (copy_media_files src out0).1 =
      ((copy_media_files src out0).1, [])) := by
  refine ⟨?_, ?_, ?_⟩
  · intro src out0 f hf
    rcases copy_foldl_mem src out0 [] f hf with hc | h
    · cases hc
    · exact h
  · intro src out0 f hf ha
    exact copy_foldl_all_in src out0 [] f hf ha
  · intro src out0
    exact copy_foldl_noop src (copy_media_files src out0).1 []
      (fun f hf ha => copy_foldl_all_in src out0 [] f hf ha)

/-- C9 witness: the theorem applied at a one-file source tree. -/
theorem c9_witness :
    (allowedMedia (pyStr "a.jpg") = true ∧
      pyStr "a.jpg" ∉ ([] : List (List Nat)) ∧
      pyStr "a.jpg" ∈ [pyStr "a.jpg"]) ∧
    copy_media_files [pyStr "a.jpg"] (copy_media_files [pyStr "a.jpg"] []).1 =
      ((copy_media_files [pyStr "a.jpg"] []).1, []) :=
  ⟨c9_copy_media_idempotent.1 [pyStr "a.jpg"] [] (pyStr "a.jpg") (by decide),
   c9_copy_media_idempotent.2.2 [pyStr "a.jpg"] []⟩

/-! ## C10: implicit album-loading defaults -/

/-- C10: an album JSON object with no `name` key gets the fixed display name
`"Untitled Album"` (the ASCII default passes unchanged through
`decode_facebook_text`); and an album file whose parse result is falsy (such
as `{}` or `[]`) is skipped by `if not data: continue` exactly as if the
parse had failed (`load_json` returning `None`). -/
theorem c10_album_defaults :
    (∀ fields, lookupLast fields (pyStr "name") = none →
      (parseAlbum (.obj fields)).name = pyStr "Untitled Album") ∧
    (∀ pre post j, truthy j = false →
      load_albums (pre ++ some j :: post) = load_albums (pre ++ none :: post)) := by
  constructor
  · intro fields h
    simp only [parseAlbum, jGetD, jGet, h]
    decide
  · intro pre post j hj
    unfold load_albums
    rw [List.filterMap_append, List.filterMap_append]
    congr 1
    simp [List.filterMap_cons, hj]

/-- C10 witness: the theorem applied at an album object with no keys at all
and at a falsy (empty-object) parse inserted into a file list. -/
theorem c10_witness :
    (parseAlbum (.obj [])).name = pyStr "Untitled Album" ∧
    load_albums ([] ++ some (.obj []) :: []) = load_albums ([] ++ none :: []) :=
  ⟨c10_album_defaults.1 [] rfl,
   c10_album_defaults.2 [] [] (.obj []) rfl⟩
